/-
Verification of the NoKanban scratchpad extension against its
natural-language specification.

The definitions below are a shallow embedding of `src/extension.ts` and of
the webview script embedded in it: the state store and its write paths,
the badge computation, the gist sync engine, the auto-backup engine with
its retention policy, the markdown preview transform, and the notes
sanitizer used to embed text in the generated page.
-/
import Mathlib

namespace NoKanban

/-! ## Data model

`Task` mirrors the TypeScript interface `Task { text; done; priority? }`
(extension.ts lines 11-15).  `Store` mirrors the two persisted values the
claims are about (`notepadContent` and `todoList` in `StorageData`). -/

structure Task where
  text : String
  done : Bool
  priority : Option String
deriving DecidableEq

structure Store where
  notepadContent : String
  todoList : List Task
deriving DecidableEq

/-- JavaScript's `String.prototype.trim`: drop whitespace from both ends. -/
def jsTrim (l : List Char) : List Char :=
  ((l.dropWhile Char.isWhitespace).reverse.dropWhile Char.isWhitespace).reverse

/-- A task is valid when its text is non-empty after trimming, mirroring
the truthiness test `t?.text?.trim()` used by the code. -/
def validTask (t : Task) : Bool :=
  !(jsTrim t.text.toList).isEmpty

/-! ## Write paths for the task list

* Interactive edit: the webview's `updateTasks()` filters with
  `tasks.filter(t => t?.text?.trim())` and posts `saveTasks` with the
  cleaned list (extension.ts line 1230); the extension-side handler then
  stores `data.tasks` verbatim (extension.ts line 103).
* JSON import: `_importData` stores `data.tasks || []` verbatim, with no
  filtering (extension.ts line 196). -/

/-- The webview's `updateTasks` cleanup: `tasks.filter(t => t?.text?.trim())`. -/
def cleanTasks (ts : List Task) : List Task :=
  ts.filter validTask

/-- The `saveTasks` branch of `_handleWebviewMessage`: stores the message's
task list verbatim (`globalState.update("todoList", data.tasks)`). -/
def handleSaveTasks (ts : List Task) (st : Store) : Store :=
  { st with todoList := ts }

/-- The JSON branch of `_importData` when a `tasks` field is present:
stores the imported list verbatim (`globalState.update("todoList", data.tasks || [])`). -/
def importTasks (ts : List Task) (st : Store) : Store :=
  { st with todoList := ts }

/-! ## Badge (`_updateBadge`, extension.ts lines 148-163) -/

/-- `pendingCount` as computed by `_updateBadge`: filter to valid tasks,
then count the not-done ones. -/
def pendingCount (ts : List Task) : Nat :=
  ((ts.filter validTask).filter (fun t => !t.done)).length

/-- The badge set by `_updateBadge`: `pendingCount > 0 ? {value} : undefined`. -/
def updateBadge (ts : List Task) : Option Nat :=
  if pendingCount ts > 0 then some (pendingCount ts) else none

/-! ## Sync engine (`_syncGist`, `_createGist`, `_updateGist`,
extension.ts lines 1419-1520)

The network is modelled by a `RemoteEnv` describing the responses GitHub
would give to the one create (`POST /gists`) and one update
(`PATCH /gists/:id`) request the engine can make; the calls actually
issued are recorded in order. -/

/-- The remote service's behaviour for this sync: whether the create /
update responses are `response.ok`, the error body's optional `message`
field otherwise, and the `id` of the gist a successful create returns. -/
structure RemoteEnv where
  createOk : Bool
  createErrMsg : Option String
  createdId : String
  updateOk : Bool
  updateErrMsg : Option String

/-- One remote HTTP call made by the sync engine. -/
inductive GistCall where
  | create
  | update (id : String)
deriving DecidableEq

/-- Outcome of a `_syncGist` run as observed by the user. -/
inductive SyncOutcome where
  | success
  | failure (message : String)
  | aborted
deriving DecidableEq

/-- JavaScript's `x || d` on an optional string: the default is used when
the value is missing or empty (empty strings are falsy). -/
def jsOrElse (m : Option String) (d : String) : String :=
  match m with
  | some s => if s = "" then d else s
  | none => d

/-- `_createGist`: POST the payload; on `!response.ok` throw
`Error(error.message || "Erro ao criar Gist")`, else return `gist.id`. -/
def createGist (env : RemoteEnv) : Except String String :=
  if env.createOk then Except.ok env.createdId
  else Except.error (jsOrElse env.createErrMsg "Erro ao criar Gist")

/-- `_updateGist`: PATCH the payload; on `!response.ok` throw
`Error(error.message || "Erro ao atualizar Gist")`. -/
def updateGist (env : RemoteEnv) : Except String Unit :=
  if env.updateOk then Except.ok ()
  else Except.error (jsOrElse env.updateErrMsg "Erro ao atualizar Gist")

/-- `_syncGist`.  Inputs: the token `_getGitHubToken` returned, whether
the user answers "Sim" to the authentication prompt, the token an
interactive `_authenticateGitHub` would return, the remote behaviour and
the stored `gistId`.  Output: the new stored `gistId`, the remote calls
made in order, and the outcome.  Mirrors extension.ts lines 1419-1466:
the new id is written to the store only on the success branch of the
create call. -/
def syncGist (token : Option String) (promptYes : Bool)
    (authToken : Option String) (env : RemoteEnv) (gistId : Option String) :
    Option String × List GistCall × SyncOutcome :=
  let tok : Option String :=
    match token with
    | some t => some t
    | none => if promptYes then authToken else none
  match tok with
  | none => (gistId, [], SyncOutcome.aborted)
  | some _ =>
    match gistId with
    | some gid =>
      match updateGist env with
      | Except.ok _ => (some gid, [GistCall.update gid], SyncOutcome.success)
      | Except.error m =>
        (some gid, [GistCall.update gid],
          SyncOutcome.failure (jsOrElse (some m) "Erro desconhecido"))
    | none =>
      match createGist env with
      | Except.ok newId => (some newId, [GistCall.create], SyncOutcome.success)
      | Except.error m =>
        (none, [GistCall.create],
          SyncOutcome.failure (jsOrElse (some m) "Erro desconhecido"))

/-! ## Auto-backup scheduler state machine
(`_enableAutoBackup`, extension.ts lines 1522-1537)

The runtime's set of live repeating timers is modelled explicitly so that
"no two timers tick concurrently" is a statement about the model, not an
assumption.  `handle` is the `_autoBackupInterval` field; `active` is the
set of interval timers currently scheduled in the host. -/

structure Sched where
  handle : Option Nat
  active : List Nat
  nextId : Nat
deriving DecidableEq

/-- The scheduler invariant: the stored handle is exactly the set of live
timers — no timer outlives the handle and the handle is never dangling. -/
def SchedInv (s : Sched) : Prop :=
  match s.handle with
  | none => s.active = []
  | some t => s.active = [t]

/-- `_enableAutoBackup(enabled, interval)`: first
`clearInterval(this._autoBackupInterval)` when set (cancelling the prior
timer), then `setInterval(...)` only when `enabled`.  An interval change
is an enable request with a new interval, so it goes through the same
cancel-then-start sequence. -/
def enableAutoBackup (enabled : Bool) (s : Sched) : Sched :=
  let s1 :=
    match s.handle with
    | some t => { s with handle := none, active := s.active.erase t }
    | none => s
  if enabled then
    { s1 with
        handle := some s1.nextId
        active := s1.active ++ [s1.nextId]
        nextId := s1.nextId + 1 }
  else s1

/-- A backup snapshot can only be written by a tick of a live timer: with
no live timer, no tick — hence no further snapshot file — is possible. -/
def canTick (s : Sched) : Prop :=
  s.active ≠ []

/-! ## Auto-backup engine (`_performAutoBackup`, extension.ts lines 1548-1602)

The backup directory is modelled as the list of file names it contains.
One run writes `backup-<timestamp>.json`, lists the directory, keeps the
names starting with `"backup-"`, sorts them descending
(`.sort().reverse()`) and deletes every name beyond the first 10. -/

/-- `name.startsWith("backup-")`. -/
def isBackupName (n : String) : Bool :=
  "backup-".toList.isPrefixOf n.toList

/-- `fs.writeFile`: creates the file, or overwrites it if it already
exists (the directory never holds two files with the same name). -/
def writeFile (name : String) (dir : List String) : List String :=
  if name ∈ dir then dir else dir ++ [name]

/-- Lexicographic comparison of character sequences, the order JavaScript's
default `Array.prototype.sort` uses on strings (code-unit by code-unit,
a strict prefix sorting first). -/
def lexLe : List Char → List Char → Bool
  | [], _ => true
  | _ :: _, [] => false
  | a :: as, b :: bs => if a = b then lexLe as bs else decide (a < b)

/-- The string order used to sort backup file names. -/
def strLe (a b : String) : Prop :=
  lexLe a.toList b.toList = true

instance : DecidableRel strLe := fun _ _ =>
  inferInstanceAs (Decidable (_ = true))

/-- `.sort().reverse()`: ascending lexicographic sort, then reversed. -/
def sortedDesc (l : List String) : List String :=
  (List.insertionSort strLe l).reverse

/-- `fs.delete` of one named file. -/
def removeFile (name : String) (dir : List String) : List String :=
  dir.filter (fun g => g != name)

/-- The retention loop's effect when every delete succeeds: each file of
`names` is deleted in turn. -/
def deleteAll (names : List String) (dir : List String) : List String :=
  names.foldl (fun d f => removeFile f d) dir

/-- The backup names the retention policy deletes in one run: the sorted
backups beyond the cap of 10 (`backupFiles.slice(10)`). -/
def backupToDelete (name : String) (dir : List String) : List String :=
  (sortedDesc ((writeFile name dir).filter isBackupName)).drop 10

/-- One `_performAutoBackup` run along its success path (no I/O failure):
write the snapshot, then delete every backup file beyond the newest 10. -/
def runOnce (name : String) (dir : List String) : List String :=
  deleteAll (backupToDelete name dir) (writeFile name dir)

/-! ### Failure model for one run

`FsOutcome` says which of the run's I/O operations would fail.  The body
is a state thread over the directory: a failing operation throws, leaving
the directory as mutated so far; `_performAutoBackup`'s `try`/`catch`
turns any such throw into a normal return. -/

structure FsOutcome where
  createDirOk : Bool
  writeOk : Bool
  listOk : Bool
  deleteOk : String → Bool

/-- The retention deletion loop: `fs.delete` for each name in turn; the
first failing delete throws out of the loop, keeping earlier deletions. -/
def deleteLoop (ok : String → Bool) (dir : List String) :
    List String → Except String Unit × List String
  | [] => (Except.ok (), dir)
  | f :: fs =>
    if ok f then deleteLoop ok (removeFile f dir) fs
    else (Except.error "delete failed", dir)

/-- The body of `_performAutoBackup` inside the outer `try`: directory
creation failure is swallowed by its own inner `catch` (and does not
change the directory's contents); a write or list failure throws with
the directory as mutated so far. -/
def backupAttempt (o : FsOutcome) (name : String) (dir : List String) :
    Except String Unit × List String :=
  let dirAfterMkdir := dir
  if !o.writeOk then (Except.error "write failed", dirAfterMkdir)
  else
    let dir1 := writeFile name dirAfterMkdir
    if !o.listOk then (Except.error "list failed", dir1)
    else deleteLoop o.deleteOk dir1 (backupToDelete name dir)

/-- `_performAutoBackup` as its caller (the interval timer) sees it: the
outer `catch` swallows any error (`console.error` only), so the call
always returns normally, with the directory in whatever state the
attempt reached. -/
def performAutoBackup (o : FsOutcome) (name : String) (dir : List String) :
    Except String (List String) :=
  Except.ok (backupAttempt o name dir).2

/-- The repeating timer: tick `n` applies `_performAutoBackup` with that
tick's I/O outcomes and timestamped file name to the directory left by
the previous ticks. -/
def backupTicks (os : Nat → FsOutcome) (names : Nat → String)
    (dir : List String) : Nat → List String
  | 0 => dir
  | n + 1 =>
    match performAutoBackup (os n) (names n) (backupTicks os names dir n) with
    | Except.ok d => d
    | Except.error _ => backupTicks os names dir n

/-! ## Markdown preview transform (`markdownToHtml`,
src/unnamed/part_000 lines 853-911)

The function is a fixed chain of regex replacements over the whole
string.  It is embedded here over `List Char`, one definition per regex,
applied in exactly the source's order.  A global `String.replace`-style
driver (`replaceAll`) scans left to right, emitting replacements without
rescanning them, as a JavaScript global regex does. -/

/-- The backtick character (code 96), written via its code point. -/
def backTick : Char := Char.ofNat 96

/-- `code.replace(/</g, "&lt;").replace(/>/g, "&gt;")` applied to the
interior of a fenced code block. -/
def escapeLtGt : List Char → List Char
  | [] => []
  | c :: rest =>
    (if c = '<' then "&lt;".toList
     else if c = '>' then "&gt;".toList
     else [c]) ++ escapeLtGt rest

/-- Split at the first triple-backtick fence: returns the text before it
and the text after it, or `none` when no fence occurs. -/
def breakOnFence : List Char → Option (List Char × List Char)
  | [] => none
  | c :: rest =>
    if [backTick, backTick, backTick].isPrefixOf (c :: rest) then
      some ([], rest.drop 2)
    else (breakOnFence rest).map fun pr => (c :: pr.1, pr.2)

/-- One lazy match of the fenced-code regex: the text before the opening
fence, the captured interior, and the text after the closing fence. -/
def codeBlockSplit (cs : List Char) : Option (List Char × List Char × List Char) :=
  match breakOnFence cs with
  | none => none
  | some (pre, rest) =>
    match breakOnFence rest with
    | none => none
    | some (code, rest2) => some (pre, code, rest2)

/-- Stage 1, fuelled: global lazy replacement of ```...``` by
`<pre><code>`, escaped interior, `</code></pre>`.  Each replacement
consumes at least six characters, so `fuel = length` never runs out. -/
def codeBlockStageAux : Nat → List Char → List Char
  | 0, cs => cs
  | fuel + 1, cs =>
    match codeBlockSplit cs with
    | none => cs
    | some (pre, code, rest2) =>
      pre ++ "<pre><code>".toList ++ escapeLtGt code
        ++ "</code></pre>".toList ++ codeBlockStageAux fuel rest2

/-- Stage 1 of `markdownToHtml`: the fenced-code-block replacement. -/
def codeBlockStage (cs : List Char) : List Char :=
  codeBlockStageAux cs.length cs

/-- Split into lines at every newline, keeping empty lines. -/
def splitOnNl : List Char → List (List Char)
  | [] => [[]]
  | c :: rest =>
    match splitOnNl rest with
    | [] => [[]]
    | l :: ls => if c = '\n' then [] :: l :: ls else (c :: l) :: ls

/-- Apply a per-line rewrite everywhere, as a `gim` regex anchored with
`^`/`$` does. -/
def mapLines (f : List Char → List Char) (cs : List Char) : List Char :=
  List.intercalate ['\n'] ((splitOnNl cs).map f)

/-- `^<marker> (.*$)` on one line: used for the three heading rules. -/
def headerLine (marker openT closeT : String) (l : List Char) : List Char :=
  if marker.toList.isPrefixOf l then
    openT.toList ++ l.drop marker.toList.length ++ closeT.toList
  else l

/-- `^> (.+)$` on one line. -/
def blockquoteLine (l : List Char) : List Char :=
  if "> ".toList.isPrefixOf l ∧ l.drop 2 ≠ [] then
    "<blockquote>".toList ++ l.drop 2 ++ "</blockquote>".toList
  else l

/-- `^---$` on one line. -/
def hrLine (l : List Char) : List Char :=
  if l = "---".toList then "<hr>".toList else l

/-- `^\* (.+)$` on one line. -/
def listLine1 (l : List Char) : List Char :=
  if "* ".toList.isPrefixOf l ∧ l.drop 2 ≠ [] then
    "<li>".toList ++ l.drop 2 ++ "</li>".toList
  else l

/-- `^\d+\. (.+)$` on one line. -/
def listLine2 (l : List Char) : List Char :=
  match l.takeWhile (fun c => c.isDigit), l.dropWhile (fun c => c.isDigit) with
  | _ :: _, '.' :: ' ' :: r =>
    if r.isEmpty then l else "<li>".toList ++ r ++ "</li>".toList
  | _, _ => l

/-- Global-replacement driver: at each position, try the matcher; on a
match emit its replacement and continue after the matched text (the
replacement itself is not rescanned), otherwise move one character on.
Every matcher below consumes at least one character, so `fuel = length`
never runs out. -/
def replaceAllAux (m : List Char → Option (List Char × List Char)) :
    Nat → List Char → List Char
  | 0, cs => cs
  | _ + 1, [] => []
  | fuel + 1, c :: rest =>
    match m (c :: rest) with
    | some (rep, remainder) => rep ++ replaceAllAux m fuel remainder
    | none => c :: replaceAllAux m fuel rest

/-- See `replaceAllAux`. -/
def replaceAll (m : List Char → Option (List Char × List Char))
    (cs : List Char) : List Char :=
  replaceAllAux m cs.length cs

/-- The lazy body of `(.+?)` between double markers: at least one
non-newline character, stopping at the earliest double marker; returns
the body and the text after the closing marker. -/
def findClose2 (mk : Char) : List Char → Option (List Char × List Char)
  | [] => none
  | c :: rest =>
    if c = '\n' then none
    else
      match rest with
      | a :: b :: rem =>
        if a = mk ∧ b = mk then some ([c], rem)
        else (findClose2 mk (a :: b :: rem)).map fun pr => (c :: pr.1, pr.2)
      | _ => none

/-- `/\*\*(.+?)\*\*/g` and `/__(.+?)__/g`: both rewrite to `<strong>`. -/
def tryBold (mk : Char) (cs : List Char) : Option (List Char × List Char) :=
  match cs with
  | a :: b :: rest =>
    if a = mk ∧ b = mk then
      (findClose2 mk rest).map fun pr =>
        ("<strong>".toList ++ pr.1 ++ "</strong>".toList, pr.2)
    else none
  | _ => none

/-- The inline code span regex: one backtick, at least one non-backtick
character (newlines allowed), one backtick; no escaping is applied. -/
def tryCodeSpan (cs : List Char) : Option (List Char × List Char) :=
  match cs with
  | c :: rest =>
    if c = backTick then
      let body := rest.takeWhile (fun d => d != backTick)
      if body.isEmpty then none
      else
        match rest.dropWhile (fun d => d != backTick) with
        | _ :: rem => some ("<code>".toList ++ body ++ "</code>".toList, rem)
        | [] => none
    else none
  | [] => none

/-- `/\*([^*\n]+)\*/g` and `/_([^_\n]+)_/g`: both rewrite to `<em>`. -/
def tryItalic (mk : Char) (cs : List Char) : Option (List Char × List Char) :=
  match cs with
  | c :: rest =>
    if c = mk then
      let body := rest.takeWhile (fun d => d != mk && d != '\n')
      if body.isEmpty then none
      else
        match rest.dropWhile (fun d => d != mk && d != '\n') with
        | d :: rem =>
          if d = mk then some ("<em>".toList ++ body ++ "</em>".toList, rem)
          else none
        | [] => none
    else none
  | [] => none

/-- `/\[([^\]]+)\]\(([^\)]+)\)/g` rewriting to `<a href="$2">$1</a>`. -/
def tryLink (cs : List Char) : Option (List Char × List Char) :=
  match cs with
  | '[' :: rest =>
    let lab := rest.takeWhile (fun c => c != ']')
    if lab.isEmpty then none
    else
      match rest.dropWhile (fun c => c != ']') with
      | ']' :: '(' :: rest2 =>
        let tgt := rest2.takeWhile (fun c => c != ')')
        if tgt.isEmpty then none
        else
          match rest2.dropWhile (fun c => c != ')') with
          | ')' :: rem =>
            some ("<a href=\"".toList ++ tgt ++ "\">".toList ++ lab
              ++ "</a>".toList, rem)
          | _ => none
      | _ => none
  | _ => none

/-- `/!\[([^\]]*)\]\(([^\)]+)\)/g` rewriting to `<img src="$2" alt="$1" />`
(the alt text may be empty). -/
def tryImg (cs : List Char) : Option (List Char × List Char) :=
  match cs with
  | '!' :: '[' :: rest =>
    let alt := rest.takeWhile (fun c => c != ']')
    match rest.dropWhile (fun c => c != ']') with
    | ']' :: '(' :: rest2 =>
      let tgt := rest2.takeWhile (fun c => c != ')')
      if tgt.isEmpty then none
      else
        match rest2.dropWhile (fun c => c != ')') with
        | ')' :: rem =>
          some ("<img src=\"".toList ++ tgt ++ "\" alt=\"".toList ++ alt
            ++ "\" />".toList, rem)
        | _ => none
    | _ => none
  | _ => none

/-- `/\n\n/g` rewriting to `</p><p>`. -/
def tryBrDouble (cs : List Char) : Option (List Char × List Char) :=
  match cs with
  | '\n' :: '\n' :: rest => some ("</p><p>".toList, rest)
  | _ => none

/-- `/\n/g` rewriting to `<br>`. -/
def tryBrSingle (cs : List Char) : Option (List Char × List Char) :=
  match cs with
  | '\n' :: rest => some ("<br>".toList, rest)
  | _ => none

/-- Does `pat` occur as a contiguous substring? -/
def containsSub (pat : List Char) : List Char → Bool
  | [] => pat.isEmpty
  | c :: rest => pat.isPrefixOf (c :: rest) || containsSub pat rest

/-- The lazy `(.*?)</li>` tail of the list-wrapping regex (the `s` flag
lets the body cross newlines; the body may be empty). -/
def findCloseLi : List Char → Option (List Char × List Char)
  | [] => none
  | c :: rest =>
    if "</li>".toList.isPrefixOf (c :: rest) then some ([], (c :: rest).drop 5)
    else (findCloseLi rest).map fun pr => (c :: pr.1, pr.2)

/-- `/(<li>.*?<\/li>)/gs` with the replacer that wraps the match in
`<ul>...</ul>` unless it already contains `<ul>`. -/
def tryListWrap (cs : List Char) : Option (List Char × List Char) :=
  if "<li>".toList.isPrefixOf cs then
    (findCloseLi (cs.drop 4)).map fun pr =>
      let m := "<li>".toList ++ pr.1 ++ "</li>".toList
      (if containsSub "<ul>".toList m then m
       else "<ul>".toList ++ m ++ "</ul>".toList, pr.2)
  else none

/-- The non-heading branches of the tag alternation
`h[1-6]|ul|ol|pre|blockquote|hr`, tried in the regex's order. -/
def tagAltRest (cs : List Char) : Option (List Char × List Char) :=
  if "ul".toList.isPrefixOf cs then some ("ul".toList, cs.drop 2)
  else if "ol".toList.isPrefixOf cs then some ("ol".toList, cs.drop 2)
  else if "pre".toList.isPrefixOf cs then some ("pre".toList, cs.drop 3)
  else if "blockquote".toList.isPrefixOf cs then
    some ("blockquote".toList, cs.drop 10)
  else if "hr".toList.isPrefixOf cs then some ("hr".toList, cs.drop 2)
  else none

/-- The tag alternation `h[1-6]|ul|ol|pre|blockquote|hr`. -/
def tagAlt (cs : List Char) : Option (List Char × List Char) :=
  match cs with
  | 'h' :: c :: rest =>
    if '1' ≤ c ∧ c ≤ '6' then some (['h', c], rest) else tagAltRest cs
  | _ => tagAltRest cs

/-- `/<p><(h[1-6]|ul|ol|pre|blockquote|hr)/g` rewriting to `<$1`. -/
def tryPClean1 (cs : List Char) : Option (List Char × List Char) :=
  if "<p><".toList.isPrefixOf cs then
    (tagAlt (cs.drop 4)).map fun pr => ('<' :: pr.1, pr.2)
  else none

/-- `/(<\/(h[1-6]|ul|ol|pre|blockquote|hr)>)<\/p>/g` rewriting to `$1`. -/
def tryPClean2 (cs : List Char) : Option (List Char × List Char) :=
  if "</".toList.isPrefixOf cs then
    match tagAlt (cs.drop 2) with
    | some (tag, rem) =>
      if "></p>".toList.isPrefixOf rem then
        some ("</".toList ++ tag ++ ">".toList, rem.drop 5)
      else none
    | none => none
  else none

/-- `/<p><\/p>/g` rewriting to the empty string. -/
def tryPClean3 (cs : List Char) : Option (List Char × List Char) :=
  if "<p></p>".toList.isPrefixOf cs then some ([], cs.drop 7) else none

/-- `markdownToHtml`, the full pipeline in the source's exact order.
Note the source applies the link rule (line 888) before the image rule
(line 889). -/
def markdownToHtml (s : String) : String :=
  if s = "" then ""
  else
    let h1 := codeBlockStage s.toList
    let h2 := mapLines (headerLine "### " "<h3>" "</h3>") h1
    let h3 := mapLines (headerLine "## " "<h2>" "</h2>") h2
    let h4 := mapLines (headerLine "# " "<h1>" "</h1>") h3
    let h5 := replaceAll (tryBold '*') h4
    let h6 := replaceAll (tryBold '_') h5
    let h7 := replaceAll tryCodeSpan h6
    let h8 := replaceAll (tryItalic '*') h7
    let h9 := replaceAll (tryItalic '_') h8
    let h10 := replaceAll tryLink h9
    let h11 := replaceAll tryImg h10
    let h12 := mapLines blockquoteLine h11
    let h13 := mapLines hrLine h12
    let h14 := mapLines listLine1 h13
    let h15 := mapLines listLine2 h14
    let h16 := replaceAll tryBrDouble h15
    let h17 := replaceAll tryBrSingle h16
    let h18 := replaceAll tryListWrap h17
    let h19 := "<p>".toList ++ h18 ++ "</p>".toList
    let h20 := replaceAll tryPClean1 h19
    let h21 := replaceAll tryPClean2 h20
    let h22 := replaceAll tryPClean3 h21
    String.mk h22

/-! ## Notes sanitizer (`_sanitizeForJson`, extension.ts lines 1352-1357
and src/unnamed/part_000 lines 1112-1117)

Three sequential global replaces: backslash to double backslash, double
quote to backslash-quote, newline to backslash-n. -/

/-- The backslash character. -/
def bsChar : Char := '\\'

/-- The double-quote character. -/
def qtChar : Char := '\"'

/-- `.replace(/\\/g, "\\\\")`. -/
def escBackslash : List Char → List Char
  | [] => []
  | c :: rest =>
    (if c = bsChar then [bsChar, bsChar] else [c]) ++ escBackslash rest

/-- `.replace(/"/g, "\\\"")`. -/
def escQuote : List Char → List Char
  | [] => []
  | c :: rest =>
    (if c = qtChar then [bsChar, qtChar] else [c]) ++ escQuote rest

/-- `.replace(/\n/g, "\\n")`. -/
def escNewline : List Char → List Char
  | [] => []
  | c :: rest =>
    (if c = '\n' then [bsChar, 'n'] else [c]) ++ escNewline rest

/-- `_sanitizeForJson`: the three replaces in the source's order. -/
def sanitizeForJson (s : String) : String :=
  String.mk (escNewline (escQuote (escBackslash s.toList)))

/-- The per-character effect of the three sequential replaces. -/
def sanitizeBlock (c : Char) : List Char :=
  if c = bsChar then [bsChar, bsChar]
  else if c = qtChar then [bsChar, qtChar]
  else if c = '\n' then [bsChar, 'n']
  else [c]

/-- Concatenation of the per-character blocks. -/
def sanitizeBlocks : List Char → List Char
  | [] => []
  | c :: rest => sanitizeBlock c ++ sanitizeBlocks rest

mutual

/-- Left inverse of the sanitizer: a backslash consumes the next
character and decodes it (`n` back to a newline, anything else to
itself). -/
def unsanitize : List Char → List Char
  | [] => []
  | c :: rest =>
    if c = bsChar then unsanitizeEsc rest else c :: unsanitize rest

/-- Decoding just after a backslash. -/
def unsanitizeEsc : List Char → List Char
  | [] => [bsChar]
  | d :: rest2 => (if d = 'n' then '\n' else d) :: unsanitize rest2

end

mutual

/-- JavaScript string-literal lexing: scanning left to right, a
backslash escapes the character after it; `true` when some double quote
is not escaped (which would terminate the generated literal). -/
def hasUnescapedQuote : List Char → Bool
  | [] => false
  | c :: rest =>
    if c = qtChar then true
    else if c = bsChar then hasUnescapedQuoteEsc rest
    else hasUnescapedQuote rest

/-- Lexing just after a backslash: the next character is escaped. -/
def hasUnescapedQuoteEsc : List Char → Bool
  | [] => false
  | _ :: rest2 => hasUnescapedQuote rest2

end

/-! # Theorems -/

/-! ## C1: filtering of invalid tasks on the write paths -/

/-- C1 (counterexample): the JSON-import write path persists a
whitespace-only task verbatim.  After importing a payload whose `tasks`
array holds `{text: "  ", done: false}`, the persisted `todoList`
contains that task, whose trimmed text is empty — so it is not true that
every write path drops invalid tasks before persistence. -/
theorem importTasks_keeps_invalid_task :
    (importTasks [⟨"  ", false, none⟩] ⟨"", []⟩).todoList = [⟨"  ", false, none⟩]
    ∧ validTask ⟨"  ", false, none⟩ = false :=
  ⟨rfl, by decide⟩

/-- C1 (amended): on the interactive-edit path the task list is filtered
in the webview (`updateTasks` sends only tasks with non-empty trimmed
text) before the `saveTasks` handler persists it verbatim, so that path
persists only valid tasks; the JSON-import path stores the imported task
list verbatim, with no filtering. -/
theorem taskWritePaths_filtering :
    (∀ ts st, (handleSaveTasks (cleanTasks ts) st).todoList = cleanTasks ts
       ∧ ((handleSaveTasks (cleanTasks ts) st).todoList.all validTask) = true)
    ∧ (∀ ts st, (importTasks ts st).todoList = ts) := by
  refine ⟨fun ts st => ⟨rfl, ?_⟩, fun ts st => rfl⟩
  simp [handleSaveTasks, cleanTasks, List.all_eq_true, List.mem_filter]

/-! ## C2: create-then-remember-id, update-thereafter -/

/-- C2: with a token available and a healthy remote, a sync with no
stored `gistId` makes exactly one create call (and no update call) and
stores the id the remote returned; a second sync with that id stored
makes exactly one update call against that same id (and no create
call), leaving the id unchanged. -/
theorem syncGist_create_then_update (env : RemoteEnv) (tok : String)
    (promptYes : Bool) (authTok : Option String)
    (hc : env.createOk = true) (hu : env.updateOk = true) :
    syncGist (some tok) promptYes authTok env none
      = (some env.createdId, [GistCall.create], SyncOutcome.success)
    ∧ syncGist (some tok) promptYes authTok env (some env.createdId)
      = (some env.createdId, [GistCall.update env.createdId],
          SyncOutcome.success) := by
  constructor <;> simp [syncGist, createGist, updateGist, hc, hu]

/-- Witness for C2 at a concrete environment. -/
theorem syncGist_create_then_update_witness :
    syncGist (some "tok") false none ⟨true, none, "gid", true, none⟩ none
      = (some "gid", [GistCall.create], SyncOutcome.success)
    ∧ syncGist (some "tok") false none ⟨true, none, "gid", true, none⟩ (some "gid")
      = (some "gid", [GistCall.update "gid"], SyncOutcome.success) :=
  syncGist_create_then_update ⟨true, none, "gid", true, none⟩ "tok" false none rfl rfl

/-! ## C4: the badge -/

/-- C4: the badge value equals the number of tasks with non-empty
trimmed text and `done == false`; when that count is zero the badge is
absent rather than shown as zero; and appending a whitespace-only task
never changes the badge. -/
theorem updateBadge_spec :
    (∀ ts, pendingCount ts = ts.countP (fun t => validTask t && !t.done))
    ∧ (∀ ts, pendingCount ts = 0 → updateBadge ts = none)
    ∧ (∀ ts, 0 < pendingCount ts → updateBadge ts = some (pendingCount ts))
    ∧ (∀ ts t, validTask t = false → updateBadge (ts ++ [t]) = updateBadge ts) := by
  have hcount : ∀ ts, pendingCount ts = ts.countP (fun t => validTask t && !t.done) := by
    intro ts
    rw [pendingCount, List.filter_filter, List.countP_eq_length_filter]
    congr 1
    apply List.filter_congr
    intro t _
    exact Bool.and_comm _ _
  have happend : ∀ ts t, validTask t = false →
      pendingCount (ts ++ [t]) = pendingCount ts := by
    intro ts t hv
    simp [pendingCount, List.filter_append, hv]
  refine ⟨hcount, ?_, ?_, ?_⟩
  · intro ts h
    simp [updateBadge, h]
  · intro ts h
    simp [updateBadge, Nat.pos_iff_ne_zero.mp h]
  · intro ts t hv
    simp [updateBadge, happend ts t hv]

/-- Witness for C4 at concrete task lists. -/
theorem updateBadge_spec_witness :
    updateBadge [] = none
    ∧ updateBadge [⟨"Buy milk", false, some "high"⟩]
        = some (pendingCount [⟨"Buy milk", false, some "high"⟩])
    ∧ updateBadge ([⟨"Buy milk", false, some "high"⟩] ++ [⟨"  ", false, none⟩])
        = updateBadge [⟨"Buy milk", false, some "high"⟩] :=
  ⟨updateBadge_spec.2.1 [] (by decide),
   updateBadge_spec.2.2.1 [⟨"Buy milk", false, some "high"⟩] (by decide),
   updateBadge_spec.2.2.2 [⟨"Buy milk", false, some "high"⟩] ⟨"  ", false, none⟩
     (by decide)⟩

/-! ## C5: backup failures never escape -/

/-- The all-success I/O behaviour. -/
def fsAllOk : FsOutcome :=
  ⟨true, true, true, fun _ => true⟩

/-- When every delete succeeds the loop performs them all. -/
theorem deleteLoop_all_ok (dir l : List String) :
    deleteLoop (fun _ => true) dir l = (Except.ok (), deleteAll l dir) := by
  induction l generalizing dir with
  | nil => rfl
  | cons f fs ih => simp [deleteLoop, deleteAll, ih (removeFile f dir)]

/-- C5: whatever subset of the run's I/O operations fails (directory
creation, write, list, or any delete), `_performAutoBackup` returns
normally — the error never reaches the timer — so tick `n + 1` is always
applied to the directory state tick `n` left behind; and when nothing
fails the run is exactly the write-then-retain `runOnce`. -/
theorem performAutoBackup_never_throws :
    (∀ o name dir, (performAutoBackup o name dir).isOk = true)
    ∧ (∀ os names dir n, backupTicks os names dir (n + 1)
        = (backupAttempt (os n) (names n) (backupTicks os names dir n)).2)
    ∧ (∀ name dir, performAutoBackup fsAllOk name dir = Except.ok (runOnce name dir)) := by
  refine ⟨fun o name dir => rfl, fun os names dir n => rfl, fun name dir => ?_⟩
  simp [performAutoBackup, backupAttempt, fsAllOk, deleteLoop_all_ok, runOnce]

/-! ## C6: remote failure handling commits no partial state -/

/-- Chaining JavaScript's `||` defaults: re-defaulting an already
defaulted message changes nothing when the first default is non-empty. -/
theorem jsOrElse_of_ne (o : Option String) (d d' : String) (hd : d ≠ "") :
    jsOrElse (some (jsOrElse o d)) d' = jsOrElse o d := by
  cases o with
  | none => simp [jsOrElse, hd]
  | some s => by_cases hs : s = "" <;> simp [jsOrElse, hs, hd]

/-- C6: a non-success create response surfaces a failure carrying the
remote's message when one is present (else the generic message) and
leaves `gistId` unset — the id is only ever written after a successful
create; a non-success update response likewise surfaces the message and
leaves the stored id unchanged. -/
theorem syncGist_failure_states (env : RemoteEnv) (tok : String)
    (promptYes : Bool) (authTok : Option String) :
    (env.createOk = false →
      syncGist (some tok) promptYes authTok env none
        = (none, [GistCall.create],
            SyncOutcome.failure (jsOrElse env.createErrMsg "Erro ao criar Gist")))
    ∧ (∀ gid, env.updateOk = false →
      syncGist (some tok) promptYes authTok env (some gid)
        = (some gid, [GistCall.update gid],
            SyncOutcome.failure (jsOrElse env.updateErrMsg "Erro ao atualizar Gist"))) := by
  constructor
  · intro hc
    simp [syncGist, createGist, hc,
      jsOrElse_of_ne env.createErrMsg "Erro ao criar Gist" "Erro desconhecido"
        (by decide)]
  · intro gid hu
    simp [syncGist, updateGist, hu,
      jsOrElse_of_ne env.updateErrMsg "Erro ao atualizar Gist" "Erro desconhecido"
        (by decide)]

/-- Witness for C6: a failed create with a remote message surfaces that
message and stores no id; a failed update with no remote message
surfaces the generic message and keeps the stored id. -/
theorem syncGist_failure_states_witness :
    syncGist (some "tok") false none ⟨false, some "Bad credentials", "x", true, none⟩ none
      = (none, [GistCall.create], SyncOutcome.failure "Bad credentials")
    ∧ syncGist (some "tok") false none ⟨true, none, "x", false, none⟩ (some "g")
      = (some "g", [GistCall.update "g"], SyncOutcome.failure "Erro ao atualizar Gist") := by
  constructor
  · have h := (syncGist_failure_states ⟨false, some "Bad credentials", "x", true, none⟩
      "tok" false none).1 rfl
    simpa [jsOrElse] using h
  · have h := (syncGist_failure_states ⟨true, none, "x", false, none⟩
      "tok" false none).2 "g" rfl
    simpa [jsOrElse] using h

/-! ## C9: one timer at a time, none after disable -/

/-- C9: starting from any state satisfying the scheduler invariant, an
enable, disable, or interval-change request cancels the prior timer
before (for enable) starting the new one: the invariant is preserved, at
most one timer is ever live, and after a disable request no timer is
live — so no tick, hence no further snapshot write, can occur. -/
theorem enableAutoBackup_single_timer (s : Sched) (hinv : SchedInv s) :
    (∀ e, SchedInv (enableAutoBackup e s))
    ∧ (∀ e, (enableAutoBackup e s).active.length ≤ 1)
    ∧ (enableAutoBackup false s).active = []
    ∧ ¬ canTick (enableAutoBackup false s) := by
  cases hh : s.handle with
  | none =>
    rw [SchedInv, hh] at hinv
    refine ⟨?_, ?_, ?_, ?_⟩ <;>
      first
        | (intro e; cases e <;> simp [enableAutoBackup, SchedInv, canTick, hh, hinv])
        | simp [enableAutoBackup, SchedInv, canTick, hh, hinv]
  | some t =>
    rw [SchedInv, hh] at hinv
    refine ⟨?_, ?_, ?_, ?_⟩ <;>
      first
        | (intro e; cases e <;> simp [enableAutoBackup, SchedInv, canTick, hh, hinv])
        | simp [enableAutoBackup, SchedInv, canTick, hh, hinv]

/-- Witness for C9 at a concrete scheduler state with one live timer. -/
theorem enableAutoBackup_single_timer_witness :
    (enableAutoBackup false ⟨some 5, [5], 6⟩).active = []
    ∧ (enableAutoBackup true ⟨some 5, [5], 6⟩).active.length ≤ 1 :=
  ⟨(enableAutoBackup_single_timer ⟨some 5, [5], 6⟩ rfl).2.2.1,
   (enableAutoBackup_single_timer ⟨some 5, [5], 6⟩ rfl).2.1 true⟩

/-! ## C3: retention keeps at most the 10 newest backups -/

theorem lexLe_total : ∀ x y : List Char, lexLe x y = true ∨ lexLe y x = true
  | [], _ => Or.inl rfl
  | _ :: _, [] => Or.inr rfl
  | a :: as, b :: bs => by
    by_cases hab : a = b
    · subst hab
      simpa [lexLe] using lexLe_total as bs
    · rcases lt_or_gt_of_ne hab with h | h
      · exact Or.inl (by simp [lexLe, hab, h])
      · exact Or.inr (by simp [lexLe, Ne.symm hab, h])

theorem lexLe_trans :
    ∀ x y z : List Char, lexLe x y = true → lexLe y z = true → lexLe x z = true
  | [], _, _ => fun _ _ => rfl
  | _ :: _, [], _ => by simp [lexLe]
  | _ :: _, _ :: _, [] => by simp [lexLe]
  | a :: as, b :: bs, c :: cs => by
    intro h1 h2
    by_cases hab : a = b <;> by_cases hbc : b = c
    · subst hab; subst hbc
      simp only [lexLe, if_pos rfl] at h1 h2 ⊢
      exact lexLe_trans as bs cs h1 h2
    · subst hab
      simp only [lexLe, if_pos rfl] at h1
      simpa [lexLe, hbc] using h2
    · subst hbc
      simp only [lexLe, if_pos rfl] at h2
      simpa [lexLe, hab] using h1
    · simp only [lexLe, if_neg hab, decide_eq_true_eq] at h1
      simp only [lexLe, if_neg hbc, decide_eq_true_eq] at h2
      have hac : a < c := lt_trans h1 h2
      simp [lexLe, ne_of_lt hac, hac]

instance : IsTotal String strLe :=
  ⟨fun a b => lexLe_total a.toList b.toList⟩

instance : IsTrans String strLe :=
  ⟨fun a b c => lexLe_trans a.toList b.toList c.toList⟩

/-- Deleting the files of `l` one by one removes exactly them. -/
theorem deleteAll_eq_filter (l : List String) :
    ∀ dir, deleteAll l dir = dir.filter (fun g => decide (g ∉ l)) := by
  induction l with
  | nil => intro dir; simp [deleteAll]
  | cons f fs ih =>
    intro dir
    rw [show deleteAll (f :: fs) dir = deleteAll fs (removeFile f dir) from rfl,
      ih, removeFile, List.filter_filter]
    apply List.filter_congr
    intro x _
    by_cases hxf : x = f <;> by_cases hxl : x ∈ fs <;> simp [hxf, hxl]

/-- Two successive filters commute. -/
theorem filter_swap {α : Type} (p q : α → Bool) (l : List α) :
    (l.filter p).filter q = (l.filter q).filter p := by
  rw [List.filter_filter, List.filter_filter]
  apply List.filter_congr
  intro x _
  exact Bool.and_comm _ _

/-- C3: one backup run deletes exactly the backup files beyond the cap
(the persisted directory is the written directory minus
`backupToDelete`); afterwards at most 10 files matching the backup
naming convention remain; every deleted backup sorts at or below every
kept one; and, concretely, eleven sequential runs over increasing
timestamps leave exactly the ten most recent backups. -/
theorem runOnce_retention (name : String) (dir : List String) :
    runOnce name dir
      = (writeFile name dir).filter (fun g => decide (g ∉ backupToDelete name dir))
    ∧ ((runOnce name dir).filter isBackupName).length ≤ 10
    ∧ (∀ d ∈ backupToDelete name dir,
        ∀ k ∈ (sortedDesc ((writeFile name dir).filter isBackupName)).take 10,
          strLe d k)
    ∧ (["backup-01", "backup-02", "backup-03", "backup-04", "backup-05",
        "backup-06", "backup-07", "backup-08", "backup-09", "backup-10",
        "backup-11"].foldl (fun d n => runOnce n d) [])
      = ["backup-02", "backup-03", "backup-04", "backup-05", "backup-06",
         "backup-07", "backup-08", "backup-09", "backup-10", "backup-11"] := by
  have heq : runOnce name dir
      = (writeFile name dir).filter (fun g => decide (g ∉ backupToDelete name dir)) :=
    deleteAll_eq_filter _ _
  refine ⟨heq, ?_, ?_, by decide⟩
  · -- at most 10 backup-named files survive
    rw [heq, filter_swap]
    have hperm : List.Perm (sortedDesc ((writeFile name dir).filter isBackupName))
        ((writeFile name dir).filter isBackupName) :=
      (List.reverse_perm _).trans (List.perm_insertionSort strLe _)
    have hlen := (hperm.filter
      (fun g => decide (g ∉ backupToDelete name dir))).length_eq
    rw [← hlen]
    set S := sortedDesc ((writeFile name dir).filter isBackupName) with hS
    have hsplit : S = S.take 10 ++ S.drop 10 := (List.take_append_drop 10 S).symm
    rw [hsplit, List.filter_append]
    have hnil : (S.drop 10).filter (fun g => decide (g ∉ backupToDelete name dir)) = [] := by
      apply List.filter_eq_nil_iff.mpr
      intro x hx
      simp only [decide_eq_true_eq, Decidable.not_not]
      rw [backupToDelete]
      rw [hsplit] at hx
      simpa using hx
    rw [hnil, List.append_nil]
    calc ((S.take 10).filter _).length
        ≤ (S.take 10).length := List.length_filter_le _ _
      _ ≤ 10 := by simp [List.length_take]
  · -- every deleted backup sorts at or below every kept one
    intro d hd k hk
    have hsorted : List.Sorted strLe
        (List.insertionSort strLe ((writeFile name dir).filter isBackupName)) :=
      List.sorted_insertionSort strLe _
    have hpair : List.Pairwise (fun a b => strLe b a)
        (sortedDesc ((writeFile name dir).filter isBackupName)) := by
      rw [sortedDesc, List.pairwise_reverse]
      exact hsorted
    set S := sortedDesc ((writeFile name dir).filter isBackupName) with hS
    rw [← List.take_append_drop 10 S, List.pairwise_append] at hpair
    exact hpair.2.2 k hk d (by rw [backupToDelete] at hd; exact hd)

/-- Witness for C3: with ten backups already present, writing an
eleventh deletes the oldest, which sorts below the newest kept one. -/
theorem runOnce_retention_witness :
    strLe "backup-01" "backup-11" :=
  (runOnce_retention "backup-11"
    ["backup-01", "backup-02", "backup-03", "backup-04", "backup-05",
     "backup-06", "backup-07", "backup-08", "backup-09", "backup-10"]).2.2.1
    "backup-01" (by decide) "backup-11" (by decide)

/-! ## C7: the link rule runs before the image rule -/

/-- C7: `markdownToHtml` applies the link replacement (source line 888)
before the image replacement (source line 889), so image syntax is
consumed by the link rule: the output for `![alt](x)` is an anchor with
a stray leading `!` and contains no image element at all. -/
theorem markdownToHtml_image_not_rendered :
    markdownToHtml "![alt](x)" = "<p>!<a href=\"x\">alt</a></p>"
    ∧ containsSub "<img".toList (markdownToHtml "![alt](x)").toList = false := by
  constructor <;> decide

/-! ## C8: fenced code is escaped and wrapped, but not inert -/

/-- C8 (counterexample): content that lay inside a fenced code block is
not inert to the later rules: the block's interior stays in the working
string, so the bold rule rewrites `**x**` inside `<pre><code>` and the
newline rule inserts `<br>` there. -/
theorem fencedCode_rewritten_by_bold :
    markdownToHtml "```\n**x**\n```"
      = "<pre><code><br><strong>x</strong><br></code></pre>"
    ∧ containsSub "<strong>".toList (markdownToHtml "```\n**x**\n```").toList = true := by
  constructor <;> decide

theorem breakOnFence_fence (rest : List Char) :
    breakOnFence (backTick :: backTick :: backTick :: rest) = some ([], rest) := by
  simp [breakOnFence, List.isPrefixOf]

theorem breakOnFence_no_backtick (s : List Char) (h : backTick ∉ s) :
    ∀ rest, breakOnFence (s ++ backTick :: backTick :: backTick :: rest)
      = some (s, rest) := by
  induction s with
  | nil => intro rest; simpa using breakOnFence_fence rest
  | cons a s ih =>
    intro rest
    have ha : backTick ≠ a := fun he => h (he ▸ List.mem_cons_self a s)
    have hs : backTick ∉ s := fun hm => h (List.mem_cons_of_mem a hm)
    have hcond : ([backTick, backTick, backTick].isPrefixOf
        (a :: (s ++ backTick :: backTick :: backTick :: rest))) = false := by
      simp [List.isPrefixOf, ha]
    simp only [List.cons_append, breakOnFence, List.append_eq, hcond,
      Bool.false_eq_true, if_false, ih hs rest, Option.map_some']

theorem codeBlockStageAux_nil (fuel : Nat) : codeBlockStageAux fuel [] = [] := by
  cases fuel <;> simp [codeBlockStageAux, codeBlockSplit, breakOnFence]

/-- The first fenced match of a fence-delimited, backtick-free interior. -/
theorem codeBlockSplit_fenced (s : List Char) (h : backTick ∉ s) :
    codeBlockSplit (backTick :: backTick :: backTick
        :: (s ++ [backTick, backTick, backTick]))
      = some ([], s, []) := by
  simp only [codeBlockSplit, breakOnFence_fence, breakOnFence_no_backtick s h]

/-- Unfolding one step of the fuelled stage when a match exists. -/
theorem codeBlockStageAux_of_split (fuel : Nat) (cs pre code rest2 : List Char)
    (h : codeBlockSplit cs = some (pre, code, rest2)) :
    codeBlockStageAux (fuel + 1) cs
      = pre ++ "<pre><code>".toList ++ escapeLtGt code
          ++ "</code></pre>".toList ++ codeBlockStageAux fuel rest2 := by
  simp only [codeBlockStageAux, h]

/-- C8 (amended): the fenced-code rule runs first and, for a fence whose
interior contains no backtick, replaces the block by its interior with
`<` and `>` escaped, wrapped in `<pre><code>...</code></pre>`; however
the result stays in the working string for the later rules to touch
(see the counterexample), and when the interior contains no other markup
the escaped wrapping survives the whole pipeline. -/
theorem fencedCode_escaped_and_wrapped :
    (∀ s : List Char, backTick ∉ s →
      codeBlockStage (backTick :: backTick :: backTick
          :: (s ++ [backTick, backTick, backTick]))
        = "<pre><code>".toList ++ escapeLtGt s ++ "</code></pre>".toList)
    ∧ markdownToHtml "```a<b```" = "<pre><code>a&lt;b</code></pre>" := by
  constructor
  · intro s h
    have hlen : (backTick :: backTick :: backTick
        :: (s ++ [backTick, backTick, backTick])).length = (s.length + 5) + 1 := by
      simp
    rw [codeBlockStage, hlen,
      codeBlockStageAux_of_split (s.length + 5) _ [] s [] (codeBlockSplit_fenced s h),
      codeBlockStageAux_nil]
    simp
  · decide

/-- Witness for C8's amended claim at a concrete interior. -/
theorem fencedCode_escaped_and_wrapped_witness :
    codeBlockStage (backTick :: backTick :: backTick
        :: (['a', '<', 'b'] ++ [backTick, backTick, backTick]))
      = "<pre><code>".toList ++ escapeLtGt ['a', '<', 'b'] ++ "</code></pre>".toList :=
  fencedCode_escaped_and_wrapped.1 ['a', '<', 'b'] (by decide)

/-! ## C10: the notes sanitizer is injective and literal-safe -/

theorem escBackslash_append (x y : List Char) :
    escBackslash (x ++ y) = escBackslash x ++ escBackslash y := by
  induction x with
  | nil => rfl
  | cons c x ih => simp [escBackslash, ih]

theorem escQuote_append (x y : List Char) :
    escQuote (x ++ y) = escQuote x ++ escQuote y := by
  induction x with
  | nil => rfl
  | cons c x ih => simp [escQuote, ih]

theorem escNewline_append (x y : List Char) :
    escNewline (x ++ y) = escNewline x ++ escNewline y := by
  induction x with
  | nil => rfl
  | cons c x ih => simp [escNewline, ih]

theorem bs_ne_nl : bsChar ≠ '\n' := by decide

theorem qt_ne_nl : qtChar ≠ '\n' := by decide

theorem qt_ne_bs : qtChar ≠ bsChar := by decide

theorem bs_ne_qt : bsChar ≠ qtChar := by decide

theorem nl_ne_bs : ('\n' : Char) ≠ bsChar := by decide

theorem nl_ne_qt : ('\n' : Char) ≠ qtChar := by decide

theorem bs_ne_n : bsChar ≠ 'n' := by decide

theorem qt_ne_n : qtChar ≠ 'n' := by decide

theorem n_ne_nl : ('n' : Char) ≠ '\n' := by decide

/-- The three sequential replaces act per character. -/
theorem sanitize_eq_blocks (l : List Char) :
    escNewline (escQuote (escBackslash l)) = sanitizeBlocks l := by
  induction l with
  | nil => rfl
  | cons c l ih =>
    have hstep : escBackslash (c :: l) = escBackslash [c] ++ escBackslash l := by
      simpa using escBackslash_append [c] l
    rw [hstep, escQuote_append, escNewline_append, ih]
    by_cases hbs : c = bsChar
    · simp [escBackslash, escQuote, escNewline, sanitizeBlocks, sanitizeBlock,
        hbs, bs_ne_nl, bs_ne_qt]
    · by_cases hqt : c = qtChar
      · simp [escBackslash, escQuote, escNewline, sanitizeBlocks, sanitizeBlock,
          hbs, hqt, qt_ne_nl, qt_ne_bs, bs_ne_nl]
      · by_cases hnl : c = '\n'
        · simp [escBackslash, escQuote, escNewline, sanitizeBlocks, sanitizeBlock,
            hbs, hqt, hnl, nl_ne_bs, nl_ne_qt, bs_ne_nl, n_ne_nl]
        · simp [escBackslash, escQuote, escNewline, sanitizeBlocks, sanitizeBlock,
            hbs, hqt, hnl]

/-- Decoding undoes the per-character encoding. -/
theorem unsanitize_blocks (l : List Char) :
    unsanitize (sanitizeBlocks l) = l := by
  induction l with
  | nil => rfl
  | cons c l ih =>
    by_cases hbs : c = bsChar
    · simp [sanitizeBlocks, sanitizeBlock, unsanitize, unsanitizeEsc, hbs,
        bs_ne_n, ih]
    · by_cases hqt : c = qtChar
      · simp [sanitizeBlocks, sanitizeBlock, unsanitize, unsanitizeEsc, hbs, hqt,
          qt_ne_n, ih]
      · by_cases hnl : c = '\n'
        · simp [sanitizeBlocks, sanitizeBlock, unsanitize, unsanitizeEsc, hbs, hqt,
            hnl, ih]
        · simp [sanitizeBlocks, sanitizeBlock, unsanitize, unsanitizeEsc, hbs, hqt,
            hnl, ih]

/-- No character of the encoded text is a newline. -/
theorem sanitizeBlocks_no_newline (l : List Char) :
    ∀ c ∈ sanitizeBlocks l, c ≠ '\n' := by
  induction l with
  | nil => simp [sanitizeBlocks]
  | cons c l ih =>
    intro d hd
    rw [sanitizeBlocks, List.mem_append] at hd
    rcases hd with hd | hd
    · intro hdeq
      subst hdeq
      by_cases hbs : c = bsChar
      · rw [sanitizeBlock, if_pos hbs] at hd
        revert hd; decide
      · by_cases hqt : c = qtChar
        · rw [sanitizeBlock, if_neg hbs, if_pos hqt] at hd
          revert hd; decide
        · by_cases hnl : c = '\n'
          · rw [sanitizeBlock, if_neg hbs, if_neg hqt, if_pos hnl] at hd
            revert hd; decide
          · rw [sanitizeBlock, if_neg hbs, if_neg hqt, if_neg hnl] at hd
            simp at hd
            exact hnl hd.symm
    · exact ih d hd

/-- Every quote in the encoded text is consumed by a preceding escape. -/
theorem sanitizeBlocks_no_unescaped_quote (l : List Char) :
    hasUnescapedQuote (sanitizeBlocks l) = false := by
  induction l with
  | nil => rfl
  | cons c l ih =>
    by_cases hbs : c = bsChar
    · simp [sanitizeBlocks, sanitizeBlock, hasUnescapedQuote, hasUnescapedQuoteEsc,
        hbs, bs_ne_qt, ih]
    · by_cases hqt : c = qtChar
      · simp [sanitizeBlocks, sanitizeBlock, hasUnescapedQuote, hasUnescapedQuoteEsc,
          hbs, hqt, bs_ne_qt, ih]
      · by_cases hnl : c = '\n'
        · simp [sanitizeBlocks, sanitizeBlock, hasUnescapedQuote, hasUnescapedQuoteEsc,
            hbs, hqt, hnl, bs_ne_qt, ih]
        · simp [sanitizeBlocks, sanitizeBlock, hasUnescapedQuote, hasUnescapedQuoteEsc,
            hbs, hqt, hnl, ih]

/-- C10: `_sanitizeForJson` is injective — distinct notes never collide —
and its output contains no newline and no unescaped double quote, so the
result can sit inside the generated page's double-quoted JavaScript
string literal without terminating it. -/
theorem sanitizeForJson_safe :
    (∀ s1 s2 : String, sanitizeForJson s1 = sanitizeForJson s2 → s1 = s2)
    ∧ (∀ (s : String) (c : Char), c ∈ (sanitizeForJson s).toList → c ≠ '\n')
    ∧ (∀ s : String, hasUnescapedQuote (sanitizeForJson s).toList = false) := by
  refine ⟨?_, ?_, ?_⟩
  · intro s1 s2 h
    have hdata : escNewline (escQuote (escBackslash s1.toList))
        = escNewline (escQuote (escBackslash s2.toList)) :=
      congrArg String.toList h
    rw [sanitize_eq_blocks, sanitize_eq_blocks] at hdata
    have hlists : s1.toList = s2.toList := by
      rw [← unsanitize_blocks s1.toList, ← unsanitize_blocks s2.toList, hdata]
    cases s1; cases s2
    exact congrArg String.mk hlists
  · intro s c hc
    rw [show (sanitizeForJson s).toList = escNewline (escQuote (escBackslash s.toList))
        from rfl, sanitize_eq_blocks] at hc
    exact sanitizeBlocks_no_newline s.toList c hc
  · intro s
    rw [show (sanitizeForJson s).toList = escNewline (escQuote (escBackslash s.toList))
        from rfl, sanitize_eq_blocks]
    exact sanitizeBlocks_no_unescaped_quote s.toList

/-- Witness for C10 at concrete strings. -/
theorem sanitizeForJson_safe_witness :
    ("ab" : String) = "ab"
    ∧ ('a' : Char) ≠ '\n'
    ∧ hasUnescapedQuote (sanitizeForJson "a\"b\\c\nd").toList = false :=
  ⟨sanitizeForJson_safe.1 "ab" "ab" rfl,
   sanitizeForJson_safe.2.1 "a\nb" 'a' (by decide),
   sanitizeForJson_safe.2.2 "a\"b\\c\nd"⟩

end NoKanban
